import Mathlib

/-!
Shallow embedding of the Mandelbrot viewer (src/src/main.rs) in Lean 4.

Conventions of the embedding:
* Rust `usize` values (iteration counts, offsets, elapsed milliseconds)
  become `Nat`; `usize` division is `Nat` division.
* `f64`/`f32` arithmetic is modelled over `ℚ` (exact real-field
  arithmetic); the claims settled here concern the exact structure of the
  computations (orderings, branch selection, constant assignments), not
  rounding behaviour.
* A Rust `panic!` (via `Option::unwrap` on `None`) is modelled by
  returning `none` from the event handler, so handlers that may panic
  have type `... → Option Model`.
-/

/-- Screen-space point (window coordinates), as in nannou's `Point2`. -/
structure Point where
  x : ℚ
  y : ℚ
deriving DecidableEq, Repr

/-- A half-open interval of the plane, as in Rust's `Range<f64>`.
`stop` stands for Rust's `end` field (a Lean keyword). -/
structure RangeQ where
  start : ℚ
  stop : ℚ
deriving DecidableEq, Repr

/-- Window rectangle, exposing the accessors the source uses:
`left()`, `top()`, `w()`, `h()`. -/
structure Rect where
  left : ℚ
  top : ℚ
  w : ℚ
  h : ℚ
deriving DecidableEq, Repr

/-- `const STEP_DIV: usize = 100`. -/
def STEP_DIV : ℕ := 100

/-- `const WIDTH: u32 = 1200`. -/
def WIDTH : ℕ := 1200

/-- `const HEIGHT: u32 = 800`. -/
def HEIGHT : ℕ := 800

/-- `const WH_SIZE: u32 = WIDTH * HEIGHT`. -/
def WH_SIZE : ℕ := WIDTH * HEIGHT

/-- `const WIDTH64: f64 = WIDTH as f64`. -/
def WIDTH64 : ℚ := 1200

/-- `const HEIGHT64: f64 = HEIGHT as f64`. -/
def HEIGHT64 : ℚ := 800

/-- `const RANGE_X: Range<f64> = -2.00..0.47`. -/
def RANGE_X : RangeQ := ⟨-2, 47/100⟩

/-- `const RANGE_Y: Range<f64> = -1.12..1.12`. -/
def RANGE_Y : RangeQ := ⟨-112/100, 112/100⟩

/-- The `Model` struct of the source, field for field. -/
structure Model where
  dragging : Bool
  invalid : Bool
  iterations : ℕ
  mouse_pos0 : Option Point
  mouse_pos1 : Option Point
  offset : ℕ
  range_x : RangeQ
  range_y : RangeQ
  running : Bool
deriving DecidableEq, Repr

/-- The initial `Model` built by `fn model` (window plumbing elided). -/
def model : Model :=
  { dragging := false,
    invalid := true,
    iterations := 0,
    mouse_pos0 := none,
    mouse_pos1 := none,
    offset := 0,
    range_x := RANGE_X,
    range_y := RANGE_Y,
    running := true }

/-- Keys the program reacts to; `other` stands for every other key. -/
inductive Key where
  | R
  | Space
  | other
deriving DecidableEq, Repr

/-- Mouse buttons; `other` stands for every non-Left, non-Right button. -/
inductive MouseButton where
  | Left
  | Right
  | other
deriving DecidableEq, Repr

/-- `fn key_pressed`. -/
def key_pressed (key : Key) (m : Model) : Model :=
  match key with
  | Key.R => { m with offset := m.iterations }
  | Key.Space => { m with running := !m.running }
  | Key.other => m

/-- `fn mouse_pressed`; `pos` is `app.mouse.position()`. -/
def mouse_pressed (button : MouseButton) (pos : Point) (m : Model) : Model :=
  if button = MouseButton.Left then
    { m with dragging := true, mouse_pos0 := some pos, mouse_pos1 := some pos }
  else m

/-- `fn mouse_moved`; `rect` is `app.window_rect()`.  The source
unwraps `mouse_pos0`, which panics when it is `None` while dragging;
that panic is modelled by `none`. -/
def mouse_moved (rect : Rect) (pos : Point) (m : Model) : Option Model :=
  if m.dragging then
    match m.mouse_pos0 with
    | some pos0 =>
        some { m with mouse_pos1 := some ⟨pos.x, pos0.y - (pos.x - pos0.x) * rect.h * rect.w⁻¹⟩ }
    | none => none
  else some m

/-- nannou's `map_range`: affine map of `val` from `[inMin, inMax]`
onto `[outMin, outMax]`. -/
def map_range (val inMin inMax outMin outMax : ℚ) : ℚ :=
  (val - inMin) / (inMax - inMin) * (outMax - outMin) + outMin

/-- `fn mouse_released`; `rect` is `app.window_rect()`.  The `Left` arm
unwraps `mouse_pos0` and `mouse_pos1`, which panics (modelled by `none`)
when either is `None`; note the source sets `invalid` and `dragging`
before the unwraps, so on panic no resulting model exists at all. -/
def mouse_released (rect : Rect) (button : MouseButton) (m : Model) : Option Model :=
  match button with
  | MouseButton.Left =>
      match m.mouse_pos0, m.mouse_pos1 with
      | some pos0, some pos1 =>
          if pos0 ≠ pos1 then
            let x0 := map_range pos0.x rect.left (rect.left + rect.w) m.range_x.start m.range_x.stop
            let x1 := map_range pos1.x rect.left (rect.left + rect.w) m.range_x.start m.range_x.stop
            let y0 := map_range pos0.y rect.top (rect.top - rect.h) m.range_y.start m.range_y.stop
            let y1 := map_range pos1.y rect.top (rect.top - rect.h) m.range_y.start m.range_y.stop
            some { m with invalid := true, dragging := false,
                          range_x := if x0 < x1 then ⟨x0, x1⟩ else ⟨x1, x0⟩,
                          range_y := if y0 < y1 then ⟨y0, y1⟩ else ⟨y1, y0⟩ }
          else
            some { m with invalid := true, dragging := false }
      | _, _ => none
  | MouseButton.Right =>
      some { m with offset := m.iterations,
                    range_x := RANGE_X, range_y := RANGE_Y, invalid := true }
  | MouseButton.other => some m

/-- `fn update`; `e` is `update.since_start.as_millis() as usize`. -/
def update (e : ℕ) (m : Model) : Model :=
  let d := e / STEP_DIV
  let m1 := if m.invalid && m.running then { m with invalid := false } else m
  if d ≠ m1.iterations then
    let m2 := { m1 with invalid := true, iterations := d }
    if !m2.running then { m2 with offset := m2.iterations } else m2
  else m1

/-- Squared norm of a complex number represented as a `(re, im)` pair;
the source's loop guard `z.norm() <= 2.0` is equivalently
`normSq z ≤ 4`. -/
def normSq (z : ℚ × ℚ) : ℚ := z.1 * z.1 + z.2 * z.2

/-- One iteration step `z * z + c` of the escape loop, with complex
squaring written out over the `(re, im)` pair. -/
def cstep (z c : ℚ × ℚ) : ℚ × ℚ :=
  (z.1 * z.1 - z.2 * z.2 + c.1, 2 * z.1 * z.2 + c.2)

/-- The escape loop of `fn mandelbrot`, counting from the current `z`
with `fuel` iterations of budget remaining:
`while j < n && z.norm() <= 2.0 { z = z * z + c; j += 1 }`. -/
def escapeLoop (c : ℚ × ℚ) : ℚ × ℚ → ℕ → ℕ
  | _, 0 => 0
  | z, fuel + 1 =>
      if normSq z ≤ 4 then escapeLoop c (cstep z c) fuel + 1 else 0

/-- `escapeCount c maxIter`: the value `j` returned by the loop of
`fn mandelbrot` starting at `z = 0`. -/
def escapeCount (c : ℚ × ℚ) (maxIter : ℕ) : ℕ :=
  escapeLoop c (0, 0) maxIter

/-- `f64 %` on the nonnegative values in use: `a - b * ⌊a / b⌋`. -/
def fmod (a b : ℚ) : ℚ := a - b * ⌊a / b⌋

/-- nannou-side helper `fn map_rrange`. -/
def map_rrange (val in_max : ℚ) (out_range : RangeQ) : ℚ :=
  out_range.start + (out_range.stop - out_range.start) * in_max⁻¹ * val

/-- `fn mandelbrot`: pixel index `i` (an `f64`) to escape count under
cap `n` for the viewport `(rx, ry)`.  Note the source divides `i` by
`WIDTH64` in floating point (no flooring) for the imaginary part. -/
def mandelbrot (i : ℚ) (n : ℕ) (rx ry : RangeQ) : ℕ :=
  escapeCount (map_rrange (fmod i WIDTH64) WIDTH64 rx,
               map_rrange (i / WIDTH64) HEIGHT64 ry) n

/-- Truncating conversion of a channel in `[0, 1]` scaled by 255 to a
byte, as in `(u8::MAX as f32 * channel) as u8` (saturating, truncating
toward zero). -/
def chanByte (x : ℚ) : ℕ := min 255 (Int.toNat ⌊255 * x⌋)

/-- Modelled from the spec: the HSV → RGB conversion performed by the
external color library (nannou/palette), absent from src/.  Spec §4.4:
hue in `[0,1]` (one full turn), saturation and value in `[0,1]`;
standard sector conversion. -/
def hsvToRgb (h s v : ℚ) : ℚ × ℚ × ℚ :=
  let h6 := h * 6
  let i : ℤ := ⌊h6⌋
  let f : ℚ := h6 - i
  let p := v * (1 - s)
  let q := v * (1 - f * s)
  let t := v * (1 - (1 - f) * s)
  let sector := i % 6
  if sector = 0 then (v, t, p)
  else if sector = 1 then (q, v, p)
  else if sector = 2 then (p, v, t)
  else if sector = 3 then (p, q, v)
  else if sector = 4 then (t, p, v)
  else (v, p, q)

/-- `fn to_color`: `hue = value / limit`, full saturation, brightness 1
for escaped points and 0 for interior points (`value == limit`), then
truncating byte conversion.  (`0 / 0` is `0` in `ℚ`; in the binary the
same input yields hue NaN, and the zero brightness forces black either
way.) -/
def to_color (value limit : ℕ) : List ℕ :=
  let hue : ℚ := (value : ℚ) / (limit : ℚ)
  let rgb := hsvToRgb hue 1 (if value < limit then 1 else 0)
  [chanByte rgb.1, chanByte rgb.2.1, chanByte rgb.2.2]

/-- The parallel buffer construction in `fn view`: one RGB triple per
pixel index in `0..WH_SIZE`, flattened to bytes.  Pixels are
independent, so the rayon parallel map is modelled by a sequential map
over the index range. -/
def generateFrame (rx ry : RangeQ) (iterations : ℕ) : List ℕ :=
  (List.range WH_SIZE).flatMap fun i => to_color (mandelbrot i iterations rx ry) iterations

/-- `fn view`, up to the display hand-off: `none` models the early
return (previous buffer reused, nothing recomputed), `some buf` models
running the raster pipeline. -/
def view (m : Model) : Option (List ℕ) :=
  if !m.running || !(m.invalid || m.dragging) then none
  else some (generateFrame m.range_x m.range_y (m.iterations - m.offset))

/-- Discrete events delivered by the external collaborators: a clock
tick carrying elapsed milliseconds, a key press, and the mouse events
(each mouse handler that reads `app.window_rect()` receives it). -/
inductive Event where
  | tick (e : ℕ)
  | key (k : Key)
  | mousePress (b : MouseButton) (pos : Point)
  | mouseMove (rect : Rect) (pos : Point)
  | mouseRelease (rect : Rect) (b : MouseButton)
deriving DecidableEq, Repr

/-- One event step of the control loop; `none` models a panic. -/
def step (m : Model) : Event → Option Model
  | Event.tick e => some (update e m)
  | Event.key k => some (key_pressed k m)
  | Event.mousePress b pos => some (mouse_pressed b pos m)
  | Event.mouseMove rect pos => mouse_moved rect pos m
  | Event.mouseRelease rect b => mouse_released rect b m

/-- Run a sequence of events from a model; `none` once any step panics. -/
def run (m : Model) : List Event → Option Model
  | [] => some m
  | ev :: rest =>
      match step m ev with
      | some m1 => run m1 rest
      | none => none

/-- The clock collaborator is monotone: the tick times of the trace are
nondecreasing, each at least `t`. -/
def goodTrace : ℕ → List Event → Bool
  | _, [] => true
  | t, Event.tick e :: rest => decide (t ≤ e) && goodTrace e rest
  | t, _ :: rest => goodTrace t rest

/-! ### Lemmas about the escape loop -/

lemma escapeLoop_le (c : ℚ × ℚ) : ∀ (n : ℕ) (z : ℚ × ℚ), escapeLoop c z n ≤ n := by
  intro n
  induction n with
  | zero => intro z; simp [escapeLoop]
  | succ k ih =>
      intro z
      unfold escapeLoop
      split
      · exact Nat.succ_le_succ (ih (cstep z c))
      · exact Nat.zero_le _

lemma escapeLoop_succ_le (c : ℚ × ℚ) :
    ∀ (n : ℕ) (z : ℚ × ℚ), escapeLoop c z n ≤ escapeLoop c z (n + 1) := by
  intro n
  induction n with
  | zero => intro z; exact Nat.zero_le _
  | succ k ih =>
      intro z
      unfold escapeLoop
      split
      · exact Nat.succ_le_succ (ih (cstep z c))
      · exact Nat.le_refl 0

lemma escapeLoop_mono (c : ℚ × ℚ) (z : ℚ × ℚ) {n m : ℕ} (h : n ≤ m) :
    escapeLoop c z n ≤ escapeLoop c z m := by
  induction m, h using Nat.le_induction with
  | base => exact Nat.le_refl _
  | succ k _ ih => exact Nat.le_trans ih (escapeLoop_succ_le c k z)

lemma escapeLoop_stable (c : ℚ × ℚ) :
    ∀ (n : ℕ) (z : ℚ × ℚ) (m : ℕ), escapeLoop c z n < n → n ≤ m →
      escapeLoop c z m = escapeLoop c z n := by
  intro n
  induction n with
  | zero => intro z m h _; exact absurd h (by simp [escapeLoop])
  | succ k ih =>
      intro z m h hm
      obtain ⟨m', rfl⟩ : ∃ m', m = m' + 1 := ⟨m - 1, by omega⟩
      have hk : k ≤ m' := by omega
      unfold escapeLoop at h ⊢
      split at h
      · next hz =>
          simp only [if_pos hz]
          have h' : escapeLoop c (cstep z c) k < k := by omega
          rw [ih (cstep z c) m' h' hk]
      · next hz => simp only [if_neg hz]

/-! ### Claim theorems -/

/-- C6: for all maxIter ≥ 0 and all c with |c| ≤ 2 (equivalently
normSq c ≤ 4), the escape-time evaluator returns a value in
[0, maxIter], and with a cap of 0 it returns 0. -/
theorem escapeCount_bounds (c : ℚ × ℚ) (maxIter : ℕ) (_hc : normSq c ≤ 4) :
    0 ≤ escapeCount c maxIter ∧ escapeCount c maxIter ≤ maxIter ∧
      escapeCount c 0 = 0 :=
  ⟨Nat.zero_le _, escapeLoop_le c maxIter (0, 0), rfl⟩

/-- Witness for C6 at c = 0, maxIter = 3. -/
theorem escapeCount_bounds_witness :
    normSq (0, 0) ≤ 4 ∧
      (0 ≤ escapeCount (0, 0) 3 ∧ escapeCount (0, 0) 3 ≤ 3 ∧
        escapeCount (0, 0) 0 = 0) :=
  ⟨by simp [normSq], escapeCount_bounds (0, 0) 3 (by simp [normSq])⟩

/-- C7: for fixed c, escapeCount c n is nondecreasing in n, and once the
returned value is strictly below the cap it is unchanged by any larger
cap. -/
theorem escapeCount_mono_and_stable (c : ℚ × ℚ) (n m : ℕ) (h : n ≤ m) :
    escapeCount c n ≤ escapeCount c m ∧
      (escapeCount c n < n → escapeCount c m = escapeCount c n) :=
  ⟨escapeLoop_mono c (0, 0) h, fun hlt => escapeLoop_stable c n (0, 0) m hlt h⟩

/-- Witness for C7 at c = 3 (which escapes after one iteration),
n = 2, m = 4. -/
theorem escapeCount_mono_and_stable_witness :
    2 ≤ 4 ∧
      (escapeCount (3, 0) 2 ≤ escapeCount (3, 0) 4 ∧
        (escapeCount (3, 0) 2 < 2 → escapeCount (3, 0) 4 = escapeCount (3, 0) 2)) :=
  ⟨by decide, escapeCount_mono_and_stable (3, 0) 2 4 (by decide)⟩

/-- C4: for every model state and window rectangle, a Right-button
release resets range_x to RANGE_X = [-2.00, 0.47), range_y to
RANGE_Y = [-1.12, 1.12), sets offset to the current iterations
(rawBudget), and marks the frame invalid. -/
theorem mouse_released_right_resets (rect : Rect) (m : Model) :
    mouse_released rect MouseButton.Right m =
      some { m with offset := m.iterations, range_x := RANGE_X,
                    range_y := RANGE_Y, invalid := true } := rfl

/-- C2 (code behaviour at the failing input): a Left-button release on
the initial model, where mouse_pos0 and mouse_pos1 are still None,
panics (the unwrap of None, modelled by `none`) instead of no-opping. -/
theorem mouse_released_left_unwrap_panics (rect : Rect) :
    mouse_released rect MouseButton.Left model = none := rfl

/-- C8: view invokes the raster pipeline iff running is true and
(the frame is invalid or a drag is in progress); otherwise it returns
early and no buffer is recomputed. -/
theorem view_renders_iff (m : Model) :
    (view m).isSome = (m.running && (m.invalid || m.dragging)) := by
  unfold view
  cases hr : m.running <;> cases hi : m.invalid <;> cases hd : m.dragging <;> simp [hr, hi, hd]

/-- C9: a Left-button release whose selection is degenerate
(anchor = current point) leaves range_x and range_y unchanged and
signals no error. -/
theorem mouse_released_degenerate_noop (rect : Rect) (m : Model) (p : Point)
    (h0 : m.mouse_pos0 = some p) (h1 : m.mouse_pos1 = some p) :
    ∃ m', mouse_released rect MouseButton.Left m = some m' ∧
      m'.range_x = m.range_x ∧ m'.range_y = m.range_y := by
  refine ⟨{ m with invalid := true, dragging := false }, ?_, rfl, rfl⟩
  simp [mouse_released, h0, h1]

/-- The concrete model for the C9 witness: anchor = current = (1, 2). -/
def c9Model : Model :=
  { model with mouse_pos0 := some ⟨1, 2⟩, mouse_pos1 := some ⟨1, 2⟩ }

/-- Witness for C9 at c9Model. -/
theorem mouse_released_degenerate_noop_witness :
    c9Model.mouse_pos0 = some ⟨1, 2⟩ ∧ c9Model.mouse_pos1 = some ⟨1, 2⟩ ∧
      (∃ m', mouse_released ⟨-600, 400, 1200, 800⟩ MouseButton.Left c9Model = some m' ∧
        m'.range_x = c9Model.range_x ∧ m'.range_y = c9Model.range_y) :=
  ⟨rfl, rfl, mouse_released_degenerate_noop ⟨-600, 400, 1200, 800⟩ c9Model ⟨1, 2⟩ rfl rfl⟩

/-- C1 counterexample: from the initial model, tick at 500ms (rawBudget
5, effectiveIterations 5), toggle running off, tick at 1500ms: the
update step resyncs offset to the new rawBudget 15, so
effectiveIterations is 0, not 5. -/
theorem pause_effective_not_five :
    (run model [Event.tick 500]).map (fun m => m.iterations - m.offset) = some 5 ∧
    (run model [Event.tick 500, Event.key Key.Space, Event.tick 1500]).map
        (fun m => m.iterations - m.offset) = some 0 ∧
    (run model [Event.tick 500, Event.key Key.Space, Event.tick 1500]).map
        (fun m => m.iterations - m.offset) ≠ some 5 := by
  refine ⟨rfl, rfl, by decide⟩

/-- C1 (amended): each tick taken while running = false resyncs offset
to the new rawBudget whenever rawBudget changed, so effectiveIterations
becomes 0 on such ticks (and is unchanged on ticks where rawBudget did
not change); it does not stay at its last value. -/
theorem update_paused_resync (e : ℕ) (m : Model) (h : m.running = false) :
    (update e m).iterations - (update e m).offset =
      (if e / STEP_DIV = m.iterations then m.iterations - m.offset else 0) := by
  unfold update
  simp only [h, Bool.and_false, Bool.false_eq_true, if_false, Bool.not_false, if_true]
  split
  · next hne => simp [Ne, hne]
  · next heq =>
      have : e / STEP_DIV = m.iterations := by
        by_contra hc
        exact heq hc
      simp [this]

/-- A paused model at rawBudget 5, as in the C1 scenario. -/
def pausedModel : Model := { model with running := false, iterations := 5 }

/-- Witness for C1 (amended) at e = 1500ms on the paused model. -/
theorem update_paused_resync_witness :
    pausedModel.running = false ∧
      (update 1500 pausedModel).iterations - (update 1500 pausedModel).offset =
        (if 1500 / STEP_DIV = pausedModel.iterations then
          pausedModel.iterations - pausedModel.offset else 0) :=
  ⟨rfl, update_paused_resync 1500 pausedModel rfl⟩

/-! ### Invariant machinery for C5 -/

lemma key_pressed_offset_iter (k : Key) (m : Model) (h : m.offset ≤ m.iterations) :
    (key_pressed k m).offset ≤ (key_pressed k m).iterations ∧
      (key_pressed k m).iterations = m.iterations := by
  cases k <;> simp [key_pressed] <;> exact h

lemma mouse_pressed_offset_iter (b : MouseButton) (pos : Point) (m : Model) :
    (mouse_pressed b pos m).offset = m.offset ∧
      (mouse_pressed b pos m).iterations = m.iterations := by
  unfold mouse_pressed
  split <;> simp

lemma mouse_moved_offset_iter (rect : Rect) (pos : Point) (m m' : Model)
    (hm : mouse_moved rect pos m = some m') :
    m'.offset = m.offset ∧ m'.iterations = m.iterations := by
  unfold mouse_moved at hm
  split at hm
  · split at hm
    · cases hm; simp
    · cases hm
  · cases hm; simp

lemma mouse_released_offset_iter (rect : Rect) (b : MouseButton) (m m' : Model)
    (hm : mouse_released rect b m = some m') (h : m.offset ≤ m.iterations) :
    m'.offset ≤ m'.iterations ∧ m'.iterations = m.iterations := by
  cases b with
  | Left =>
      cases hp0 : m.mouse_pos0 with
      | none => simp [mouse_released, hp0] at hm
      | some p0 =>
          cases hp1 : m.mouse_pos1 with
          | none => simp [mouse_released, hp0, hp1] at hm
          | some p1 =>
              by_cases hne : p0 = p1
              · simp only [mouse_released, hp0, hp1, hne, ne_eq, not_true_eq_false,
                  if_false, Option.some.injEq] at hm
                rw [← hm]
                exact ⟨h, rfl⟩
              · simp only [mouse_released, hp0, hp1, ne_eq, hne, not_false_eq_true,
                  if_true, Option.some.injEq] at hm
                rw [← hm]
                exact ⟨h, rfl⟩
  | Right =>
      simp only [mouse_released, Option.some.injEq] at hm
      rw [← hm]
      exact ⟨Nat.le_refl _, rfl⟩
  | other =>
      simp only [mouse_released, Option.some.injEq] at hm
      rw [← hm]
      exact ⟨h, rfl⟩

/-- The tail of `fn update` after the invalid-clearing step, applied to
the already-adjusted model `m1` and the derived budget `d`; definitionally
equal to the corresponding part of `update`. -/
def updateBudget (d : ℕ) (m1 : Model) : Model :=
  if d ≠ m1.iterations then
    if !m1.running then { m1 with invalid := true, iterations := d, offset := d }
    else { m1 with invalid := true, iterations := d }
  else m1

lemma update_eq (e : ℕ) (m : Model) :
    update e m = updateBudget (e / STEP_DIV)
      (if m.invalid && m.running then { m with invalid := false } else m) := by
  unfold update updateBudget
  split <;> rfl

lemma updateBudget_offset_iter (d : ℕ) (m1 : Model) (h1 : m1.offset ≤ m1.iterations)
    (h2 : m1.iterations ≤ d) :
    (updateBudget d m1).offset ≤ (updateBudget d m1).iterations ∧
      (updateBudget d m1).iterations ≤ d := by
  unfold updateBudget
  split
  · split
    · exact ⟨Nat.le_refl _, Nat.le_refl _⟩
    · exact ⟨Nat.le_trans h1 h2, Nat.le_refl _⟩
  · exact ⟨h1, h2⟩

lemma pre_invalid_fields (m : Model) :
    (if m.invalid && m.running then { m with invalid := false } else m).offset = m.offset ∧
      (if m.invalid && m.running then { m with invalid := false } else m).iterations = m.iterations := by
  split <;> exact ⟨rfl, rfl⟩

lemma update_offset_iter (e : ℕ) (m : Model) (h1 : m.offset ≤ m.iterations)
    (h2 : m.iterations ≤ e / STEP_DIV) :
    (update e m).offset ≤ (update e m).iterations ∧
      (update e m).iterations ≤ e / STEP_DIV := by
  rw [update_eq]
  obtain ⟨ho, hi⟩ := pre_invalid_fields m
  exact updateBudget_offset_iter (e / STEP_DIV) _ (by rw [ho, hi]; exact h1) (by rw [hi]; exact h2)

lemma run_offset_le (evs : List Event) :
    ∀ (m : Model) (t : ℕ), m.offset ≤ m.iterations → m.iterations ≤ t / STEP_DIV →
      goodTrace t evs = true → ∀ m', run m evs = some m' →
        m'.offset ≤ m'.iterations := by
  induction evs with
  | nil =>
      intro m t h1 _ _ m' hr
      cases hr
      exact h1
  | cons ev rest ih =>
      intro m t h1 h2 hg m' hr
      cases ev with
      | tick e =>
          simp only [goodTrace, Bool.and_eq_true, decide_eq_true_eq] at hg
          obtain ⟨hte, hg'⟩ := hg
          simp only [run, step] at hr
          have hd : m.iterations ≤ e / STEP_DIV :=
            Nat.le_trans h2 (Nat.div_le_div_right hte)
          obtain ⟨ha, hb⟩ := update_offset_iter e m h1 hd
          exact ih (update e m) e ha hb hg' m' hr
      | key k =>
          simp only [goodTrace] at hg
          simp only [run, step] at hr
          obtain ⟨ha, hb⟩ := key_pressed_offset_iter k m h1
          exact ih (key_pressed k m) t ha (hb ▸ h2) hg m' hr
      | mousePress b pos =>
          simp only [goodTrace] at hg
          simp only [run, step] at hr
          obtain ⟨ha, hb⟩ := mouse_pressed_offset_iter b pos m
          exact ih (mouse_pressed b pos m) t (by rw [ha, hb]; exact h1) (hb ▸ h2) hg m' hr
      | mouseMove rect pos =>
          simp only [goodTrace] at hg
          simp only [run, step] at hr
          cases hmm : mouse_moved rect pos m with
          | none => rw [hmm] at hr; cases hr
          | some m1 =>
              rw [hmm] at hr
              obtain ⟨ha, hb⟩ := mouse_moved_offset_iter rect pos m m1 hmm
              exact ih m1 t (by rw [ha, hb]; exact h1) (hb ▸ h2) hg m' hr
      | mouseRelease rect b =>
          simp only [goodTrace] at hg
          simp only [run, step] at hr
          cases hmr : mouse_released rect b m with
          | none => rw [hmr] at hr; cases hr
          | some m1 =>
              rw [hmr] at hr
              obtain ⟨ha, hb⟩ := mouse_released_offset_iter rect b m m1 hmr h1
              exact ih m1 t ha (hb ▸ h2) hg m' hr

/-- C5: in every state reachable from the initial model by ticks with
nondecreasing elapsed time, key presses and mouse events (panic-free
runs), offset ≤ iterations, so the subtraction
model.iterations - model.offset in view never underflows. -/
theorem reachable_offset_le_iterations (evs : List Event) (m' : Model)
    (hg : goodTrace 0 evs = true) (hr : run model evs = some m') :
    m'.offset ≤ m'.iterations :=
  run_offset_le evs model 0 (Nat.le_refl 0) (Nat.zero_le _) hg m' hr

/-- The C1/C5 scenario trace. -/
def c5Trace : List Event := [Event.tick 500, Event.key Key.Space, Event.tick 1500]

/-- The model the scenario trace ends in. -/
def c5Final : Model :=
  { model with invalid := true, iterations := 15, offset := 15, running := false }

/-- Witness for C5 on the scenario trace. -/
theorem reachable_offset_le_iterations_witness :
    goodTrace 0 c5Trace = true ∧ run model c5Trace = some c5Final ∧
      c5Final.offset ≤ c5Final.iterations :=
  ⟨by decide, rfl, reachable_offset_le_iterations c5Trace c5Final (by decide) rfl⟩

/-! ### C3: ordering of the rebased viewport -/

lemma map_range_ne (v0 v1 a b c d : ℚ) (hab : b - a ≠ 0) (hcd : d - c ≠ 0)
    (hv : v0 - v1 ≠ 0) : map_range v0 a b c d ≠ map_range v1 a b c d := by
  intro heq
  have key : map_range v0 a b c d - map_range v1 a b c d =
      (v0 - v1) * ((d - c) / (b - a)) := by
    unfold map_range
    ring
  rw [heq, sub_self] at key
  exact mul_ne_zero hv (div_ne_zero hcd hab) key.symm

/-- C3 (amended): for screen points that differ in both coordinates
(as every aspect-locked drag with a horizontal component does), a
positive-size window rectangle, and a current viewport satisfying the
start < end invariant, the Left-release rebase yields
range_x.start < range_x.end and range_y.start < range_y.end regardless
of corner order.  (Points differing in only one coordinate yield a
degenerate axis; see the counterexample.) -/
theorem rebase_ordered_of_both_coords_ne (rect : Rect) (m : Model) (p0 p1 : Point)
    (h0 : m.mouse_pos0 = some p0) (h1 : m.mouse_pos1 = some p1)
    (hx : p0.x ≠ p1.x) (hy : p0.y ≠ p1.y)
    (hw : rect.w ≠ 0) (hh : rect.h ≠ 0)
    (hrx : m.range_x.start < m.range_x.stop) (hry : m.range_y.start < m.range_y.stop) :
    ∃ m', mouse_released rect MouseButton.Left m = some m' ∧
      m'.range_x.start < m'.range_x.stop ∧ m'.range_y.start < m'.range_y.stop := by
  have hne : p0 ≠ p1 := fun h => hx (congrArg Point.x h)
  have habx : (rect.left + rect.w) - rect.left ≠ 0 := by
    have : rect.left + rect.w - rect.left = rect.w := by ring
    rw [this]
    exact hw
  have haby : (rect.top - rect.h) - rect.top ≠ 0 := by
    have : rect.top - rect.h - rect.top = -rect.h := by ring
    rw [this]
    exact neg_ne_zero.mpr hh
  have hxne : map_range p0.x rect.left (rect.left + rect.w) m.range_x.start m.range_x.stop ≠
      map_range p1.x rect.left (rect.left + rect.w) m.range_x.start m.range_x.stop :=
    map_range_ne _ _ _ _ _ _ habx (sub_ne_zero.mpr hrx.ne') (sub_ne_zero.mpr hx)
  have hyne : map_range p0.y rect.top (rect.top - rect.h) m.range_y.start m.range_y.stop ≠
      map_range p1.y rect.top (rect.top - rect.h) m.range_y.start m.range_y.stop :=
    map_range_ne _ _ _ _ _ _ haby (sub_ne_zero.mpr hry.ne') (sub_ne_zero.mpr hy)
  let x0 := map_range p0.x rect.left (rect.left + rect.w) m.range_x.start m.range_x.stop
  let x1 := map_range p1.x rect.left (rect.left + rect.w) m.range_x.start m.range_x.stop
  let y0 := map_range p0.y rect.top (rect.top - rect.h) m.range_y.start m.range_y.stop
  let y1 := map_range p1.y rect.top (rect.top - rect.h) m.range_y.start m.range_y.stop
  refine ⟨{ m with invalid := true, dragging := false, range_x := if x0 < x1 then ⟨x0, x1⟩ else ⟨x1, x0⟩, range_y := if y0 < y1 then ⟨y0, y1⟩ else ⟨y1, y0⟩ }, ?_, ?_, ?_⟩
  · simp only [mouse_released, h0, h1, ne_eq, hne, not_false_eq_true, if_true]
  · dsimp only
    split
    · next hlt => exact hlt
    · next hlt => exact lt_of_le_of_ne (le_of_not_lt hlt) (Ne.symm hxne)
  · dsimp only
    split
    · next hlt => exact hlt
    · next hlt => exact lt_of_le_of_ne (le_of_not_lt hlt) (Ne.symm hyne)

/-- C3 counterexample: the screen points (0, 0) and (0, 1) are distinct
but share an x coordinate, and the Left-release rebase then produces a
degenerate range_x with start = stop = -153/200, violating
start < end. -/
theorem rebase_degenerate_equal_x :
    ((⟨0, 0⟩ : Point) ≠ ⟨0, 1⟩) ∧
    (mouse_released ⟨-600, 400, 1200, 800⟩ MouseButton.Left
        { model with mouse_pos0 := some ⟨0, 0⟩, mouse_pos1 := some ⟨0, 1⟩ }).map
      (fun m1 => m1.range_x) = some ⟨-153/200, -153/200⟩ ∧
    ¬ ((-153/200 : ℚ) < -153/200) := by
  have hne : (⟨0, 0⟩ : Point) ≠ ⟨0, 1⟩ := by decide
  refine ⟨hne, ?_, lt_irrefl _⟩
  norm_num [mouse_released, map_range, hne, model, RANGE_X]

/-- The window rectangle of the C3 witness (the 1200x800 window). -/
def c3Rect : Rect := ⟨-600, 400, 1200, 800⟩

/-- The concrete model for the C3 witness: a drag from (0, 0) to
(100, 50). -/
def c3Model : Model :=
  { model with mouse_pos0 := some ⟨0, 0⟩, mouse_pos1 := some ⟨100, 50⟩ }

/-- Witness for C3 (amended) on c3Model and c3Rect. -/
theorem rebase_ordered_witness :
    c3Model.mouse_pos0 = some ⟨0, 0⟩ ∧ c3Model.mouse_pos1 = some ⟨100, 50⟩ ∧
    (⟨0, 0⟩ : Point).x ≠ (⟨100, 50⟩ : Point).x ∧
    (⟨0, 0⟩ : Point).y ≠ (⟨100, 50⟩ : Point).y ∧
    c3Rect.w ≠ 0 ∧ c3Rect.h ≠ 0 ∧
    c3Model.range_x.start < c3Model.range_x.stop ∧
    c3Model.range_y.start < c3Model.range_y.stop ∧
    (∃ m', mouse_released c3Rect MouseButton.Left c3Model = some m' ∧
      m'.range_x.start < m'.range_x.stop ∧ m'.range_y.start < m'.range_y.stop) :=
  ⟨rfl, rfl, by decide, by decide, by decide, by decide,
    by norm_num [c3Model, model, RANGE_X],
    by norm_num [c3Model, model, RANGE_Y],
    rebase_ordered_of_both_coords_ne c3Rect c3Model ⟨0, 0⟩ ⟨100, 50⟩ rfl rfl
      (by decide) (by decide) (by decide) (by decide)
      (by norm_num [c3Model, model, RANGE_X])
      (by norm_num [c3Model, model, RANGE_Y])⟩

/-! ### C10: the zero-budget frame is black -/

lemma to_color_zero : to_color 0 0 = [0, 0, 0] := by
  norm_num [to_color, hsvToRgb, chanByte]

lemma mandelbrot_zero (i : ℚ) (rx ry : RangeQ) : mandelbrot i 0 rx ry = 0 := rfl

lemma flatMap_const_black (f : ℕ → List ℕ) (hf : ∀ i, f i = [0, 0, 0]) :
    ∀ l : List ℕ, l.flatMap f = List.replicate (3 * l.length) 0 := by
  intro l
  induction l with
  | nil => rfl
  | cons a t ih =>
      rw [List.flatMap_cons, hf, ih, List.length_cons]
      have h3 : 3 * (t.length + 1) = 3 + 3 * t.length := by ring
      rw [h3, List.replicate_add]
      rfl

/-- C10: when the effective iteration budget is 0, every pixel of the
generated frame is black: mandelbrot returns 0 at cap 0 for every pixel
index and viewport, to_color 0 0 is black, and the whole frame is the
all-zero buffer of W·H·3 bytes. -/
theorem zero_budget_black_frame (rx ry : RangeQ) (i : ℚ) :
    mandelbrot i 0 rx ry = 0 ∧ to_color 0 0 = [0, 0, 0] ∧
      generateFrame rx ry 0 = List.replicate (WIDTH * HEIGHT * 3) 0 := by
  refine ⟨rfl, to_color_zero, ?_⟩
  unfold generateFrame
  rw [flatMap_const_black (fun j => to_color (mandelbrot (↑j) 0 rx ry) 0)
    (fun j => by simp only []; rw [mandelbrot_zero]; exact to_color_zero) (List.range WH_SIZE)]
  rw [List.length_range]
  have h3 : 3 * WH_SIZE = WIDTH * HEIGHT * 3 := by
    unfold WH_SIZE
    ring
  rw [h3]
